import Mathlib

/-!
Shallow embedding of the `multiboot2` crate's tag decoders and builders,
covering the memory-map tags (`memory_map.rs`), the framebuffer tag
(`framebuffer.rs`), the string tags (`command_line.rs`, `boot_loader_name.rs`,
`module.rs`) and the ELF-sections tag (`elf_sections.rs`).

Bytes are modelled as natural numbers below 256 inside `List Nat`; multi-byte
fields are read and written little-endian, matching the `to_le_bytes` calls on
the encode side and the (little-endian host) in-place reinterpretation on the
decode side.  A Rust function that can panic is embedded as a function into
`PResult`, whose `panic` constructor records the panic: an `assert!` failure,
an arithmetic-overflow abort, or an out-of-bounds index all land there, since
none of them returns control to the caller.
-/

/-- Outcome of a Rust computation that may panic (assertion failure,
arithmetic overflow, out-of-bounds index): `ok` is a normal return,
`panic` aborts. -/
inductive PResult (α : Type) where
  | ok : α → PResult α
  | panic : String → PResult α
deriving Repr, DecidableEq

/-- `true` iff the computation panicked. -/
def PResult.isPanic {α : Type} : PResult α → Bool
  | .ok _ => false
  | .panic _ => true

/-- Little-endian value of a byte list (first byte least significant). -/
def readLE : List Nat → Nat
  | [] => 0
  | b :: bs => b + 256 * readLE bs

/-- Read an `n`-byte little-endian field at byte offset `off`. -/
def readAt (bs : List Nat) (off n : Nat) : Nat :=
  readLE ((bs.drop off).take n)

/-- `n` little-endian bytes of `v` (`v.to_le_bytes()`), truncating at `n` bytes. -/
def writeLE (v : Nat) : Nat → List Nat
  | 0 => []
  | n + 1 => v % 256 :: writeLE (v / 256) n

theorem writeLE_length (v n : Nat) : (writeLE v n).length = n := by
  induction n generalizing v with
  | zero => rfl
  | succ n ih => simp [writeLE, ih]

theorem readLE_writeLE (v n : Nat) (h : v < 256 ^ n) :
    readLE (writeLE v n) = v := by
  induction n generalizing v with
  | zero =>
    simp [writeLE, readLE]
    omega
  | succ n ih =>
    have hdiv : v / 256 < 256 ^ n := by
      rw [Nat.div_lt_iff_lt_mul (by norm_num)]
      calc v < 256 ^ (n + 1) := h
        _ = 256 ^ n * 256 := by ring
    simp [writeLE, readLE, ih _ hdiv]
    omega

theorem take_writeLE_append (v n : Nat) (rest : List Nat) :
    ((writeLE v n ++ rest).take n) = writeLE v n := by
  rw [List.take_append_of_le_length (by simp [writeLE_length])]
  simp [writeLE_length]

theorem readAt_zero_writeLE (v n : Nat) (rest : List Nat) (h : v < 256 ^ n) :
    readAt (writeLE v n ++ rest) 0 n = v := by
  simp [readAt, take_writeLE_append, readLE_writeLE v n h]

theorem readAt_shift (a b : List Nat) (off n : Nat) :
    readAt (a ++ b) (a.length + off) n = readAt b off n := by
  simp [readAt, List.drop_append]

theorem readAt_take (bs : List Nat) (off n m : Nat) (h : off + n ≤ m) :
    readAt (bs.take m) off n = readAt bs off n := by
  unfold readAt
  rw [List.drop_take, List.take_take, Nat.min_eq_left (by omega)]

/-!
### EFI memory map tag (`memory_map.rs`)

`EFIMemoryDesc` is `uefi_raw::table::boot::MemoryDescriptor`, a `repr(C)`
struct `ty: u32, phys_start: u64, virt_start: u64, page_count: u64, att: u64`
whose fields sit at byte offsets 0, 8, 16, 24, 32 (four padding bytes follow
`ty`), with `size_of` = 40 — the repository's own test
(`construction_and_parsing`) pins `desc_size = 48 = 40 + 8` for the built tag.
-/

/-- Decoded form of `uefi_raw`'s `MemoryDescriptor` (all fields as `Nat`). -/
structure EFIMemoryDesc where
  ty : Nat
  phys_start : Nat
  virt_start : Nat
  page_count : Nat
  att : Nat
deriving Repr, DecidableEq

/-- The fields of `EFIMemoryDesc` fit their machine widths
(`ty: u32`, the rest `u64`). -/
def EFIMemoryDesc.WF (d : EFIMemoryDesc) : Prop :=
  d.ty < 256 ^ 4 ∧ d.phys_start < 256 ^ 8 ∧ d.virt_start < 256 ^ 8 ∧
    d.page_count < 256 ^ 8 ∧ d.att < 256 ^ 8

instance (d : EFIMemoryDesc) : Decidable d.WF := by
  unfold EFIMemoryDesc.WF
  infer_instance

/-- `EFIMemoryAreaIter::next` reinterprets the bytes at the element pointer as
an `EFIMemoryDesc`: fields are read at their `repr(C)` offsets, the padding
bytes 4..8 are never read. -/
def decodeEFIDesc (bs : List Nat) : EFIMemoryDesc :=
  { ty := readAt bs 0 4
    phys_start := readAt bs 8 8
    virt_start := readAt bs 16 8
    page_count := readAt bs 24 8
    att := readAt bs 32 8 }

/-- `EFIMemoryMapTag`: `desc_size`, `desc_version` header fields and the raw
`memory_map: [u8]` body (the DST slice has length `size - 16`). -/
structure EFIMemoryMapTag where
  desc_size : Nat
  desc_version : Nat
  memory_map : List Nat
deriving Repr, DecidableEq

/-- The element list produced by driving `EFIMemoryAreaIter` to exhaustion:
`entries = memory_map.len() / desc_size` elements, the `i`-th read at byte
offset `i * desc_size`. -/
def efiEntries (t : EFIMemoryMapTag) : List EFIMemoryDesc :=
  (List.range (t.memory_map.length / t.desc_size)).map
    (fun i => decodeEFIDesc (t.memory_map.drop (i * t.desc_size)))

/-- `EFIMemoryMapTag::memory_areas` followed by `EFIMemoryAreaIter::new`:
asserts `desc_version == EFIMemoryDesc::VERSION` (= 1), then asserts
`memory_map.len() % desc_size == 0` (a `desc_size` of zero makes the `%`
itself panic with a division by zero).  The raw-pointer alignment assertion
has no counterpart on byte lists.  On success the whole iteration is
returned as a list. -/
def memory_areas (t : EFIMemoryMapTag) : PResult (List EFIMemoryDesc) :=
  if t.desc_version ≠ 1 then
    .panic "assertion failed: self.desc_version == EFIMemoryDesc::VERSION"
  else if t.desc_size = 0 then
    .panic "attempt to calculate the remainder with a divisor of zero"
  else if t.memory_map.length % t.desc_size ≠ 0 then
    .panic "memory map length must be a multiple of desc_size by definition. The MBI seems to be corrupt."
  else
    .ok (efiEntries t)

/-!
### Builder side (`EFIMemoryMapTag::new_from_descs` / `new_from_map`)

`size_of::<EFIMemoryDesc>() = 40`, so `desc_size_diff = 8 - 40 % 8 = 8` and
`desc_size = 48`: each descriptor is serialized as its 40 struct bytes
(`AsBytes`; the four padding bytes after `ty` are written as zero) followed by
8 zero fill bytes.
-/

/-- `AsBytes` serialization of one `EFIMemoryDesc` (40 bytes, `repr(C)`
layout, padding bytes zero). -/
def encodeEFIDesc (d : EFIMemoryDesc) : List Nat :=
  writeLE d.ty 4 ++ writeLE 0 4 ++ writeLE d.phys_start 8 ++
    writeLE d.virt_start 8 ++ writeLE d.page_count 8 ++ writeLE d.att 8

/-- `EFIMemoryMapTag::new_from_descs`: stride 48 = 40 + 8, each descriptor's
bytes followed by 8 zero-fill bytes; version 1. -/
def efiChunk (d : EFIMemoryDesc) : List Nat :=
  encodeEFIDesc d ++ List.replicate 8 0

def new_from_descs (descs : List EFIMemoryDesc) : EFIMemoryMapTag :=
  { desc_size := 48
    desc_version := 1
    memory_map := descs.flatMap efiChunk }

theorem encodeEFIDesc_length (d : EFIMemoryDesc) : (encodeEFIDesc d).length = 40 := by
  simp [encodeEFIDesc, writeLE_length]

theorem readAt_skip_writeLE (v k : Nat) (b : List Nat) (off n : Nat) (hoff : k ≤ off) :
    readAt (writeLE v k ++ b) off n = readAt b (off - k) n := by
  have h := readAt_shift (writeLE v k) b (off - k) n
  rw [writeLE_length] at h
  rwa [Nat.add_sub_cancel' hoff] at h

theorem decodeEFIDesc_encode (d : EFIMemoryDesc) (rest : List Nat) (h : d.WF) :
    decodeEFIDesc (encodeEFIDesc d ++ rest) = d := by
  obtain ⟨ty, ph, vi, pg, att⟩ := d
  obtain ⟨h1, h2, h3, h4, h5⟩ := h
  unfold decodeEFIDesc encodeEFIDesc
  simp only [List.append_assoc]
  simp only [EFIMemoryDesc.mk.injEq]
  refine ⟨?_, ?_, ?_, ?_, ?_⟩
  · exact readAt_zero_writeLE _ _ _ h1
  · rw [readAt_skip_writeLE ty 4 _ 8 8 (by norm_num),
      readAt_skip_writeLE 0 4 _ _ 8 (by norm_num)]
    exact readAt_zero_writeLE _ _ _ h2
  · rw [readAt_skip_writeLE ty 4 _ 16 8 (by norm_num),
      readAt_skip_writeLE 0 4 _ _ 8 (by norm_num),
      readAt_skip_writeLE ph 8 _ _ 8 (by norm_num)]
    exact readAt_zero_writeLE _ _ _ h3
  · rw [readAt_skip_writeLE ty 4 _ 24 8 (by norm_num),
      readAt_skip_writeLE 0 4 _ _ 8 (by norm_num),
      readAt_skip_writeLE ph 8 _ _ 8 (by norm_num),
      readAt_skip_writeLE vi 8 _ _ 8 (by norm_num)]
    exact readAt_zero_writeLE _ _ _ h4
  · rw [readAt_skip_writeLE ty 4 _ 32 8 (by norm_num),
      readAt_skip_writeLE 0 4 _ _ 8 (by norm_num),
      readAt_skip_writeLE ph 8 _ _ 8 (by norm_num),
      readAt_skip_writeLE vi 8 _ _ 8 (by norm_num),
      readAt_skip_writeLE pg 8 _ _ 8 (by norm_num)]
    exact readAt_zero_writeLE _ _ _ h5

theorem efiChunk_length (d : EFIMemoryDesc) : (efiChunk d).length = 48 := by
  simp [efiChunk, encodeEFIDesc_length]

theorem flatMap_efiChunk_length (descs : List EFIMemoryDesc) :
    (descs.flatMap efiChunk).length = 48 * descs.length := by
  induction descs with
  | nil => simp
  | cons d t ih => simp [List.flatMap_cons, efiChunk_length, ih]; ring

theorem decodeEFIDesc_efiChunk (d : EFIMemoryDesc) (rest : List Nat) (h : d.WF) :
    decodeEFIDesc (efiChunk d ++ rest) = d := by
  rw [efiChunk, List.append_assoc]
  exact decodeEFIDesc_encode d _ h

theorem entries_flatMap_efiChunk (descs : List EFIMemoryDesc)
    (h : ∀ d ∈ descs, d.WF) :
    (List.range descs.length).map
      (fun i => decodeEFIDesc ((descs.flatMap efiChunk).drop (i * 48))) = descs := by
  induction descs with
  | nil => simp
  | cons d t ih =>
    have hd : d.WF := h d (List.mem_cons_self d t)
    have ht : ∀ x ∈ t, x.WF := fun x hx => h x (List.mem_cons_of_mem _ hx)
    simp only [List.length_cons, List.range_succ_eq_map, List.map_cons, List.map_map]
    refine congrArg₂ List.cons ?_ ?_
    · simpa using decodeEFIDesc_efiChunk d _ hd
    · have step : ∀ i : Nat,
          ((d :: t).flatMap efiChunk).drop ((i + 1) * 48) =
            (t.flatMap efiChunk).drop (i * 48) := by
        intro i
        have hlen : (efiChunk d).length = 48 := efiChunk_length d
        calc ((d :: t).flatMap efiChunk).drop ((i + 1) * 48)
            = (efiChunk d ++ t.flatMap efiChunk).drop ((efiChunk d).length + i * 48) := by
              rw [List.flatMap_cons, hlen]; ring_nf
          _ = (t.flatMap efiChunk).drop (i * 48) := by
              rw [List.drop_append]
      calc (List.range t.length).map
            (fun i => decodeEFIDesc (((d :: t).flatMap efiChunk).drop ((i + 1) * 48)))
          = (List.range t.length).map
            (fun i => decodeEFIDesc ((t.flatMap efiChunk).drop (i * 48))) := by
            refine List.map_congr_left ?_
            intro i _
            rw [step i]
        _ = t := ih ht

theorem decodeEFIDesc_take40 (bs : List Nat) :
    decodeEFIDesc (bs.take 40) = decodeEFIDesc bs := by
  unfold decodeEFIDesc
  rw [readAt_take bs 0 4 40 (by norm_num), readAt_take bs 8 8 40 (by norm_num),
    readAt_take bs 16 8 40 (by norm_num), readAt_take bs 24 8 40 (by norm_num),
    readAt_take bs 32 8 40 (by norm_num)]

/-!
### Legacy memory map tag (`MemoryMapTag::dst_size`)

`METADATA_SIZE = 16` and `mem::size_of::<MemoryArea>() = 24`
(`u64 + u64 + u32 + u32`).
-/

/-- `MemoryMapTag::dst_size`: `assert!(size >= 16)`, then
`assert_eq!((size - 16) % 24, 0)`, then return `(size - 16) / 24`. -/
def dst_size (size : Nat) : PResult Nat :=
  if size < 16 then
    .panic "assertion failed: base_tag.size as usize >= METADATA_SIZE"
  else if (size - 16) % 24 ≠ 0 then
    .panic "assertion failed: size % mem::size_of::<MemoryArea>() == 0"
  else
    .ok ((size - 16) / 24)

/-- C1: for every EFI memory map tag (variable-stride array tag) with version 1,
positive stride `desc_size` and body a multiple of the stride, the iterator
exposes `body_len / desc_size` elements, and the `i`-th yielded element is
decoded from the stride window at byte offset `i * desc_size`, interpreting
only that window's first 40 bytes (`size_of::<EFIMemoryDesc>()`); the trailing
padding bytes of the window are never read. -/
theorem C1_efi_iter_stride_windows (t : EFIMemoryMapTag)
    (hv : t.desc_version = 1) (hd : 0 < t.desc_size)
    (hm : t.memory_map.length % t.desc_size = 0) :
    memory_areas t = .ok (efiEntries t) ∧
    (efiEntries t).length = t.memory_map.length / t.desc_size ∧
    ∀ i : Nat, ∀ hi : i < (efiEntries t).length,
      (efiEntries t).get ⟨i, hi⟩ =
        decodeEFIDesc ((t.memory_map.drop (i * t.desc_size)).take 40) := by
  refine ⟨?_, ?_, ?_⟩
  · simp [memory_areas, hv, Nat.pos_iff_ne_zero.mp hd, hm]
  · simp [efiEntries]
  · intro i hi
    simp only [efiEntries, List.get_eq_getElem, List.getElem_map, List.getElem_range]
    rw [decodeEFIDesc_take40]

def t0C1 : EFIMemoryMapTag :=
  { desc_size := 48, desc_version := 1, memory_map := List.replicate 96 3 }

theorem C1_efi_iter_stride_windows_witness :
    memory_areas t0C1 = .ok (efiEntries t0C1) ∧
    (efiEntries t0C1).get ⟨0, by decide⟩ =
      decodeEFIDesc ((t0C1.memory_map.drop (0 * t0C1.desc_size)).take 40) :=
  ⟨(C1_efi_iter_stride_windows t0C1 rfl (by decide) (by decide)).1,
    (C1_efi_iter_stride_windows t0C1 rfl (by decide) (by decide)).2.2 0 (by decide)⟩

/-- C2: building an EFI memory map tag from a list of descriptors
(`new_from_descs`, which stores each 40-byte descriptor at 48-byte stride and
zero-fills the 8 padding bytes) and then iterating the built tag's memory
areas yields exactly the original descriptors, in order. -/
theorem C2_efi_roundtrip (descs : List EFIMemoryDesc)
    (h : ∀ d ∈ descs, d.WF) :
    memory_areas (new_from_descs descs) = .ok descs := by
  have hmm : (descs.flatMap efiChunk).length = 48 * descs.length :=
    flatMap_efiChunk_length descs
  have hdiv : (descs.flatMap efiChunk).length / 48 = descs.length := by
    rw [hmm]
    exact Nat.mul_div_cancel_left _ (by norm_num)
  have hmod : (descs.flatMap efiChunk).length % 48 = 0 := by
    rw [hmm]
    exact Nat.mul_mod_right 48 _
  have hent : efiEntries (new_from_descs descs) = descs := by
    show (List.range ((descs.flatMap efiChunk).length / 48)).map
      (fun i => decodeEFIDesc ((descs.flatMap efiChunk).drop (i * 48))) = descs
    rw [hdiv]
    exact entries_flatMap_efiChunk descs h
  show (if (1 : Nat) ≠ 1 then _ else _) = _
  rw [if_neg (by norm_num)]
  show (if (48 : Nat) = 0 then _ else _) = _
  rw [if_neg (by norm_num)]
  show (if (descs.flatMap efiChunk).length % 48 ≠ 0 then _ else _) = _
  rw [if_neg (by rw [not_ne_iff]; exact hmod)]
  rw [hent]

theorem C2_efi_roundtrip_witness :
    memory_areas (new_from_descs
      [⟨7, 4096, 4096, 1, 0⟩, ⟨2, 8192, 8192, 3, 15⟩]) =
      .ok [⟨7, 4096, 4096, 1, 0⟩, ⟨2, 8192, 8192, 3, 15⟩] :=
  C2_efi_roundtrip _ (by decide)

/-- C3 (counterexample to the claim as stated): on a legacy memory map tag
whose declared size 17 leaves a body of 1 byte (not a multiple of the 24-byte
element size), and on an EFI memory map tag whose 41-byte body is not a
multiple of the 48-byte stride, the element accessors do NOT report a
recoverable structural error: they panic (assertion failure). -/
theorem C3_counterexample_panics :
    (dst_size 17).isPanic = true ∧
    (memory_areas
      { desc_size := 48, desc_version := 1,
        memory_map := List.replicate 41 0 }).isPanic = true := by
  constructor
  · rfl
  · decide

/-- C3 (amended): for every array tag whose body length (after the fixed
header fields) is not a multiple of the stride, the element accessors never
truncate or round — but they abort via an assertion panic rather than
returning a recoverable structural error; this covers both the fixed-stride
memory map tag (`dst_size`) and the variable-stride EFI memory map tag
(`EFIMemoryAreaIter::new` reached through `memory_areas`). -/
theorem C3_non_multiple_stride_asserts :
    (∀ size : Nat, 16 ≤ size → (size - 16) % 24 ≠ 0 →
      (dst_size size).isPanic = true) ∧
    (∀ t : EFIMemoryMapTag, t.desc_version = 1 → 0 < t.desc_size →
      t.memory_map.length % t.desc_size ≠ 0 →
      (memory_areas t).isPanic = true) := by
  constructor
  · intro size h1 h2
    rw [dst_size, if_neg (by omega), if_pos h2]
    rfl
  · intro t hv hd hm
    simp [memory_areas, hv, Nat.pos_iff_ne_zero.mp hd, hm, PResult.isPanic]

theorem C3_non_multiple_stride_asserts_witness :
    (dst_size 41).isPanic = true ∧
    (memory_areas
      { desc_size := 48, desc_version := 1,
        memory_map := List.replicate 50 7 }).isPanic = true :=
  ⟨C3_non_multiple_stride_asserts.1 41 (by decide) (by decide),
    C3_non_multiple_stride_asserts.2 _ rfl (by decide) (by decide)⟩

/-!
### String tags (`command_line.rs`, `boot_loader_name.rs`, `module.rs`)

Each tag's DST body is the `[u8]` field after the fixed fields; the loader
constructs the fat pointer with slice length `size - METADATA_SIZE`, so the
accessors' `self.size as usize - METADATA_SIZE` equals the body length and
`strlen = body.len() - 1`.  The subtraction is a Rust `usize` subtraction:
when the body is empty it underflows (abort in debug builds; in release it
wraps and the subsequent `slice::from_raw_parts`/`self.string[0]` reads out
of bounds), which the embedding records as a panic.  After that,
`str::from_utf8` validates the first `body.len() - 1` bytes.
-/

/-- Result of a string-tag accessor (`Result<&str, Utf8Error>` plus the panic
outcome): `ok` carries the UTF-8 byte content of the returned `&str`. -/
inductive StrResult where
  | ok : List Nat → StrResult
  | utf8Error : StrResult
  | panic : String → StrResult
deriving Repr, DecidableEq

/-- `true` iff the accessor panicked. -/
def StrResult.isPanic : StrResult → Bool
  | .panic _ => true
  | _ => false

/-- `true` iff `b` is a UTF-8 continuation byte (`0x80..=0xBF`). -/
def isCont (b : Nat) : Bool :=
  0x80 ≤ b && b ≤ 0xBF

/-- The exact byte-sequence condition checked by `core::str::from_utf8`:
well-formed UTF-8 (shortest forms only, no surrogates, max `U+10FFFF`). -/
def utf8Valid : List Nat → Bool
  | [] => true
  | b :: rest =>
    if b ≤ 0x7F then utf8Valid rest
    else if b < 0xC2 then false
    else if b ≤ 0xDF then
      match rest with
      | c1 :: r => isCont c1 && utf8Valid r
      | [] => false
    else if b ≤ 0xEF then
      match rest with
      | c1 :: c2 :: r =>
        (if b = 0xE0 then decide (0xA0 ≤ c1 ∧ c1 ≤ 0xBF)
         else if b = 0xED then decide (0x80 ≤ c1 ∧ c1 ≤ 0x9F)
         else isCont c1) && isCont c2 && utf8Valid r
      | _ => false
    else if b ≤ 0xF4 then
      match rest with
      | c1 :: c2 :: c3 :: r =>
        (if b = 0xF0 then decide (0x90 ≤ c1 ∧ c1 ≤ 0xBF)
         else if b = 0xF4 then decide (0x80 ≤ c1 ∧ c1 ≤ 0x8F)
         else isCont c1) && isCont c2 && isCont c3 && utf8Valid r
      | _ => false
    else false

/-- Common body of the three string accessors: `strlen = body.len() - 1`
(usize subtraction: underflow when the body is empty), then `from_utf8` on
the first `strlen` body bytes. -/
def stringAccessor (body : List Nat) : StrResult :=
  if body.length = 0 then
    .panic "attempt to subtract with overflow"
  else
    let bytes := body.take (body.length - 1)
    if utf8Valid bytes then .ok bytes else .utf8Error

/-- `CommandLineTag::command_line` on a tag whose body is `body`. -/
def command_line (body : List Nat) : StrResult :=
  stringAccessor body

/-- `BootLoaderNameTag::name` on a tag whose body is `body`. -/
def boot_loader_name (body : List Nat) : StrResult :=
  stringAccessor body

/-- `ModuleTag::cmdline` on a tag whose `cmdline_str` body is `body`
(`METADATA_SIZE = 16` there, and the DST slice length is `size - 16`, so the
arithmetic is identical). -/
def module_cmdline (body : List Nat) : StrResult :=
  stringAccessor body

/-- C5: for every string tag (bootloader name, command line, module cmdline)
with non-empty body whose last byte is 0x00, the accessor returns `Ok` of the
first `body_len - 1` body bytes when they are valid UTF-8, and returns a
`Utf8Error` (not a panic) when they are not. -/
theorem C5_string_accessor_decodes (body : List Nat)
    (hne : body ≠ []) (hnul : body.getLast? = some 0) :
    (utf8Valid (body.take (body.length - 1)) = true →
      command_line body = .ok (body.take (body.length - 1)) ∧
      boot_loader_name body = .ok (body.take (body.length - 1)) ∧
      module_cmdline body = .ok (body.take (body.length - 1))) ∧
    (utf8Valid (body.take (body.length - 1)) = false →
      command_line body = .utf8Error ∧
      boot_loader_name body = .utf8Error ∧
      module_cmdline body = .utf8Error) := by
  have hlen : body.length ≠ 0 := by
    intro h0
    exact hne (List.length_eq_zero.mp h0)
  constructor
  · intro hv
    refine ⟨?_, ?_, ?_⟩ <;>
      simp [command_line, boot_loader_name, module_cmdline, stringAccessor, hlen, hv]
  · intro hv
    refine ⟨?_, ?_, ?_⟩ <;>
      simp [command_line, boot_loader_name, module_cmdline, stringAccessor, hlen, hv]

theorem C5_string_accessor_decodes_witness :
    (command_line [104, 105, 0] = .ok [104, 105] ∧
      boot_loader_name [104, 105, 0] = .ok [104, 105] ∧
      module_cmdline [104, 105, 0] = .ok [104, 105]) ∧
    (command_line [255, 0] = .utf8Error ∧
      boot_loader_name [255, 0] = .utf8Error ∧
      module_cmdline [255, 0] = .utf8Error) :=
  ⟨(C5_string_accessor_decodes [104, 105, 0] (by decide) (by decide)).1 (by decide),
    (C5_string_accessor_decodes [255, 0] (by decide) (by decide)).2 (by decide)⟩

/-- C6 (counterexample to the claim as stated): on a string tag with empty
body (declared size = 8, no room for the NUL byte) the accessors do NOT
report a structural error: the `size - METADATA_SIZE - 1` length computation
underflows and the accessor panics. -/
theorem C6_counterexample_empty_body_panics :
    (command_line []).isPanic = true ∧ (boot_loader_name []).isPanic = true := by
  constructor <;> rfl

/-- C6 (amended): for every string tag whose body is empty, the string
accessor panics — the `body_len - 1` usize computation underflows (and the
body index would be out of bounds) — instead of returning a structural error
or any value. -/
theorem C6_empty_body_underflow (body : List Nat) (h : body = []) :
    command_line body = .panic "attempt to subtract with overflow" ∧
    boot_loader_name body = .panic "attempt to subtract with overflow" := by
  subst h
  constructor <;> rfl

theorem C6_empty_body_underflow_witness :
    command_line [] = .panic "attempt to subtract with overflow" ∧
    boot_loader_name [] = .panic "attempt to subtract with overflow" :=
  C6_empty_body_underflow [] rfl

/-!
### Framebuffer tag (`framebuffer.rs`)

`FramebufferTag` carries fixed fields, a one-byte discriminant `type_no`, a
reserved `u16`, and the DST `buffer: [u8]` from which `buffer_type` decodes
the variant-specific trailing data.
-/

/-- Modelled from the spec: `Reader` (the spec's ByteCursor, `reader.rs` is
not part of the given sources) — a primitive sequential reader over a byte
slice: `read_u8` returns the next byte, `read_u32` the next four bytes
little-endian (native endianness, little-endian in practice per the spec),
each advancing the position; `current_address` is the fixed-field base plus
the current position. -/
structure Reader where
  data : List Nat
  pos : Nat

def Reader.new (data : List Nat) : Reader :=
  { data := data, pos := 0 }

def Reader.read_u8 (r : Reader) : Nat × Reader :=
  (r.data.getD r.pos 0, { r with pos := r.pos + 1 })

def Reader.read_u32 (r : Reader) : Nat × Reader :=
  (readAt r.data r.pos 4, { r with pos := r.pos + 4 })

/-- `FramebufferColor`: `repr(C, packed)`, three consecutive bytes. -/
structure FramebufferColor where
  red : Nat
  green : Nat
  blue : Nat
deriving Repr, DecidableEq

/-- An RGB color field (`FramebufferField`): bit position and mask size. -/
structure FramebufferField where
  position : Nat
  size : Nat
deriving Repr, DecidableEq

/-- `FramebufferType`: the three known variants. -/
inductive FramebufferType where
  | indexed : List FramebufferColor → FramebufferType
  | rgb : FramebufferField → FramebufferField → FramebufferField → FramebufferType
  | text : FramebufferType
deriving Repr, DecidableEq

/-- The relevant fields of `FramebufferTag`: the discriminant byte `type_no`
and the trailing `buffer: [u8]`. -/
structure FramebufferTag where
  type_no : Nat
  buffer : List Nat
deriving Repr, DecidableEq

/-- The palette borrow `slice::from_raw_parts(cursor, num_colors)`: `n`
consecutive 3-byte `FramebufferColor` entries starting at byte offset `off`
of the buffer (reads beyond the buffer's end yield the default 0). -/
def readColors (bs : List Nat) (off : Nat) : Nat → List FramebufferColor
  | 0 => []
  | n + 1 =>
    ⟨bs.getD off 0, bs.getD (off + 1) 0, bs.getD (off + 2) 0⟩ ::
      readColors bs (off + 3) n

/-- `FramebufferTag::buffer_type`: dispatch on the discriminant byte.
`0`: read a `u32` color count, then borrow that many 3-byte color triples
from the current cursor address; `1`: read six `u8` fields as the three
(position, size) pairs for red, green, blue; `2`: `Text`; anything else:
`panic!("Unknown framebuffer type: ...")`. -/
def buffer_type (t : FramebufferTag) : PResult FramebufferType :=
  let r := Reader.new t.buffer
  match t.type_no with
  | 0 =>
    let (num_colors, r1) := r.read_u32
    .ok (.indexed (readColors t.buffer r1.pos num_colors))
  | 1 =>
    let (red_pos, r1) := r.read_u8
    let (red_mask, r2) := r1.read_u8
    let (green_pos, r3) := r2.read_u8
    let (green_mask, r4) := r3.read_u8
    let (blue_pos, r5) := r4.read_u8
    let (blue_mask, _) := r5.read_u8
    .ok (.rgb ⟨red_pos, red_mask⟩ ⟨green_pos, green_mask⟩ ⟨blue_pos, blue_mask⟩)
  | 2 => .ok .text
  | no => .panic ("Unknown framebuffer type: " ++ toString no)

/-- C4 (counterexample to the claim as stated): on a framebuffer tag whose
discriminant byte is 3 (not one of 0, 1, 2), `buffer_type` does NOT surface a
typed `Err(UnknownVariant(code))` decode error — it panics. -/
theorem C4_counterexample_unknown_discriminant_panics :
    (buffer_type { type_no := 3, buffer := [] }).isPanic = true := by
  rfl

/-- C4 (amended): for every framebuffer tag whose discriminant byte is not
one of the known values 0, 1, or 2, `buffer_type` panics with a message
carrying the unrecognized code; it never silently coerces the value to one of
the known variants (it does not return at all). -/
theorem C4_unknown_discriminant_panics (t : FramebufferTag)
    (h0 : t.type_no ≠ 0) (h1 : t.type_no ≠ 1) (h2 : t.type_no ≠ 2) :
    buffer_type t = .panic ("Unknown framebuffer type: " ++ toString t.type_no) := by
  obtain ⟨no, buf⟩ := t
  simp only at h0 h1 h2 ⊢
  match no, h0, h1, h2 with
  | n + 3, _, _, _ => rfl

theorem C4_unknown_discriminant_panics_witness :
    buffer_type { type_no := 5, buffer := [1, 2, 3] } =
      .panic ("Unknown framebuffer type: " ++ toString 5) :=
  C4_unknown_discriminant_panics _ (by decide) (by decide) (by decide)

theorem readColors_map (bs : List Nat) (off n : Nat) :
    readColors bs off n = (List.range n).map
      (fun i => ⟨bs.getD (off + 3 * i) 0, bs.getD (off + 3 * i + 1) 0,
        bs.getD (off + 3 * i + 2) 0⟩) := by
  induction n generalizing off with
  | zero => rfl
  | succ n ih =>
    rw [readColors, List.range_succ_eq_map, List.map_cons, List.map_map, ih (off + 3)]
    refine congrArg₂ List.cons (by simp) ?_
    refine List.map_congr_left ?_
    intro i _
    have e : off + 3 * i.succ = off + 3 + 3 * i := by omega
    simp only [Function.comp, e]

/-- C8: the framebuffer tag's known-variant dispatch follows the discriminant
exactly: for 0, `buffer_type` reads a `u32` color count at buffer offset 0
and exposes that many consecutive 3-byte color triples starting at offset 4
(no padding between entries); for 1, it reads six `u8` fields, in order, as
the (position, size) pairs for red, green, and blue; for 2, it reads no
further fields and returns the text variant. -/
theorem C8_framebuffer_known_dispatch :
    (∀ t : FramebufferTag, t.type_no = 0 →
      buffer_type t = .ok (.indexed ((List.range (readAt t.buffer 0 4)).map
        (fun i => ⟨t.buffer.getD (4 + 3 * i) 0, t.buffer.getD (4 + 3 * i + 1) 0,
          t.buffer.getD (4 + 3 * i + 2) 0⟩)))) ∧
    (∀ t : FramebufferTag, t.type_no = 1 →
      buffer_type t = .ok (.rgb ⟨t.buffer.getD 0 0, t.buffer.getD 1 0⟩
        ⟨t.buffer.getD 2 0, t.buffer.getD 3 0⟩
        ⟨t.buffer.getD 4 0, t.buffer.getD 5 0⟩)) ∧
    (∀ t : FramebufferTag, t.type_no = 2 → buffer_type t = .ok .text) := by
  refine ⟨?_, ?_, ?_⟩ <;> intro t h <;> obtain ⟨no, buf⟩ := t <;>
    simp only at h <;> subst h
  · simp [buffer_type, Reader.new, Reader.read_u32, readColors_map]
  · simp [buffer_type, Reader.new, Reader.read_u8]
  · rfl

theorem C8_framebuffer_known_dispatch_witness :
    buffer_type { type_no := 0, buffer := [2, 0, 0, 0, 10, 20, 30, 40, 50, 60] } =
      .ok (.indexed [⟨10, 20, 30⟩, ⟨40, 50, 60⟩]) ∧
    buffer_type { type_no := 1, buffer := [1, 2, 3, 4, 5, 6] } =
      .ok (.rgb ⟨1, 2⟩ ⟨3, 4⟩ ⟨5, 6⟩) ∧
    buffer_type { type_no := 2, buffer := [] } = .ok .text :=
  ⟨(C8_framebuffer_known_dispatch.1
      { type_no := 0, buffer := [2, 0, 0, 0, 10, 20, 30, 40, 50, 60] } rfl).trans
      (by decide),
    (C8_framebuffer_known_dispatch.2.1
      { type_no := 1, buffer := [1, 2, 3, 4, 5, 6] } rfl).trans (by decide),
    C8_framebuffer_known_dispatch.2.2 { type_no := 2, buffer := [] } rfl⟩

/-!
### ELF sections tag (`elf_sections.rs`)

The tag body after the 8-byte header holds three `u32` fields
(`number_of_sections`, `entry_size`, `shndx`) and then `sections: [u8]`, the
raw section-header table.  The iterator and the sections carry raw pointers
into that table; the embedding represents each pointer as a byte offset into
the `sections` array (`backing`).  `ElfSectionInner32` (packed) puts
`name_index` at offset 0, `typ` at 4, `flags` at 8, `addr` at 12 (each
`u32`); `ElfSectionInner64` (packed) puts `name_index` at 0, `typ` at 4
(`u32`), `flags` at 8 and `addr` at 16 (each `u64`).
-/

/-- Decode-side `ElfSectionsTag` fields (the `u8` DST is `sections`). -/
structure ElfSectionsTag where
  number_of_sections : Nat
  entry_size : Nat
  shndx : Nat
  sections : List Nat
deriving Repr, DecidableEq

/-- `ElfSection`: the per-section handle produced by the iterator — raw
pointers `inner` and `string_section` modelled as byte offsets into the
tag's section table (`backing`), plus `entry_size` and the caller-supplied
`offset`. -/
structure ElfSection where
  backing : List Nat
  inner : Nat
  string_section : Nat
  entry_size : Nat
  offset : Nat
deriving Repr, DecidableEq

/-- `ElfSection::get().name_index()`: offset 0, `u32`, in both layouts; the
dispatch on `entry_size` panics for any size other than 40 or 64. -/
def ElfSection.name_index (s : ElfSection) : PResult Nat :=
  match s.entry_size with
  | 40 => .ok (readAt (s.backing.drop s.inner) 0 4)
  | 64 => .ok (readAt (s.backing.drop s.inner) 0 4)
  | _ => .panic "Unexpected entry size"

/-- `ElfSection::get().typ()` (via `section_type_raw`): offset 4, `u32`, in
both layouts; panics for any other `entry_size`. -/
def ElfSection.section_type_raw (s : ElfSection) : PResult Nat :=
  match s.entry_size with
  | 40 => .ok (readAt (s.backing.drop s.inner) 4 4)
  | 64 => .ok (readAt (s.backing.drop s.inner) 4 4)
  | _ => .panic "Unexpected entry size"

/-- The raw-`u32`-to-enum mapping of `ElfSection::section_type`: codes 0-11
are the named types, `0x6000_0000..=0x6FFF_FFFF` environment-specific,
`0x7000_0000..=0x7FFF_FFFF` processor-specific, and anything else is logged
and treated as `Unused`. -/
inductive ElfSectionType where
  | Unused
  | ProgramSection
  | LinkerSymbolTable
  | StringTable
  | RelaRelocation
  | SymbolHashTable
  | DynamicLinkingTable
  | Note
  | Uninitialized
  | RelRelocation
  | Reserved
  | DynamicLoaderSymbolTable
  | EnvironmentSpecific
  | ProcessorSpecific
deriving Repr, DecidableEq

def sectionTypeOfRaw (v : Nat) : ElfSectionType :=
  if v = 0 then .Unused
  else if v = 1 then .ProgramSection
  else if v = 2 then .LinkerSymbolTable
  else if v = 3 then .StringTable
  else if v = 4 then .RelaRelocation
  else if v = 5 then .SymbolHashTable
  else if v = 6 then .DynamicLinkingTable
  else if v = 7 then .Note
  else if v = 8 then .Uninitialized
  else if v = 9 then .RelRelocation
  else if v = 10 then .Reserved
  else if v = 11 then .DynamicLoaderSymbolTable
  else if 0x60000000 ≤ v ∧ v ≤ 0x6FFFFFFF then .EnvironmentSpecific
  else if 0x70000000 ≤ v ∧ v ≤ 0x7FFFFFFF then .ProcessorSpecific
  else .Unused

/-- `ElfSection::section_type`. -/
def ElfSection.section_type (s : ElfSection) : PResult ElfSectionType :=
  match s.section_type_raw with
  | .ok v => .ok (sectionTypeOfRaw v)
  | .panic m => .panic m

/-- `ElfSectionIter` driven to exhaustion (`next` in a loop): starting at
offset `cur` with `n` remaining sections, build the section handle, advance
by `entry_size`, and yield the handle unless its type is `Unused`. -/
def elfCollect (backing : List Nat) (ss es off : Nat) : Nat → Nat → PResult (List ElfSection)
  | _, 0 => .ok []
  | cur, n + 1 =>
    let sec : ElfSection :=
      { backing := backing, inner := cur, string_section := ss,
        entry_size := es, offset := off }
    match sec.section_type with
    | .panic m => .panic m
    | .ok ty =>
      match elfCollect backing ss es off (cur + es) n with
      | .panic m => .panic m
      | .ok rest => .ok (if ty ≠ .Unused then sec :: rest else rest)

/-- `ElfSectionsTag::sections(offset)`: the iterator starts at the first
section with `string_section = shndx * entry_size` (a pointer into the tag's
own element array) and `number_of_sections` remaining. -/
def elf_sections (t : ElfSectionsTag) (offset : Nat) : PResult (List ElfSection) :=
  elfCollect t.sections (t.shndx * t.entry_size) t.entry_size offset 0 t.number_of_sections

/-- `ElfSection::string_table`: reinterpret the bytes at the
`string_section` pointer as the inner struct and read its `addr` field
(offset 12 as `u32` for the 40-byte layout, offset 16 as `u64` for the
64-byte layout), then add the caller-supplied `offset`. -/
def ElfSection.string_table (s : ElfSection) : PResult Nat :=
  match s.entry_size with
  | 40 => .ok (readAt (s.backing.drop s.string_section) 12 4 + s.offset)
  | 64 => .ok (readAt (s.backing.drop s.string_section) 16 8 + s.offset)
  | _ => .panic "Unexpected entry size"

/-- The `strlen`-style scan of `ElfSection::name`: bytes of external memory
`mem` from address `p` up to (excluding) the first NUL; `none` when no NUL
appears within `fuel` bytes (the `while` loop would keep reading). -/
def cstrScan (mem : Nat → Nat) (p : Nat) : Nat → Option (List Nat)
  | 0 => none
  | fuel + 1 =>
    if mem p = 0 then some []
    else (cstrScan mem (p + 1) fuel).map (fun bs => mem p :: bs)

/-- The `str::from_utf8` step at the end of `ElfSection::name`. -/
def utf8Step (bs : List Nat) : StrResult :=
  if utf8Valid bs then .ok bs else .utf8Error

/-- `ElfSection::name`: `name_ptr = string_table() + name_index()`, then the
NUL-terminated bytes at `name_ptr` in external memory `mem`, validated as
UTF-8. -/
def ElfSection.name (s : ElfSection) (mem : Nat → Nat) (fuel : Nat) :
    PResult (Option StrResult) :=
  match s.string_table with
  | .panic m => .panic m
  | .ok st =>
    match s.name_index with
    | .panic m => .panic m
    | .ok ni => .ok ((cstrScan mem (st + ni) fuel).map utf8Step)

/-- The string-table element's `addr` field, read directly from the window
at byte offset `shndx * entry_size` of the tag's own element array. -/
def elfAddrField (t : ElfSectionsTag) : Nat :=
  if t.entry_size = 40 then readAt (t.sections.drop (t.shndx * t.entry_size)) 12 4
  else readAt (t.sections.drop (t.shndx * t.entry_size)) 16 8

theorem elfCollect_mem (backing : List Nat) (ss es off : Nat) :
    ∀ (n cur : Nat) (l : List ElfSection),
      elfCollect backing ss es off cur n = .ok l →
      ∀ s ∈ l, s.backing = backing ∧ s.string_section = ss ∧
        s.entry_size = es ∧ s.offset = off := by
  intro n
  induction n with
  | zero =>
    intro cur l h s hs
    simp only [elfCollect, PResult.ok.injEq] at h
    subst h
    simp at hs
  | succ n ih =>
    intro cur l h s hs
    simp only [elfCollect] at h
    cases hty : (ElfSection.mk backing cur ss es off).section_type with
    | panic m => rw [hty] at h; cases h
    | ok ty =>
      rw [hty] at h
      cases hrec : elfCollect backing ss es off (cur + es) n with
      | panic m => rw [hrec] at h; cases h
      | ok rest =>
        rw [hrec] at h
        simp only [PResult.ok.injEq] at h
        subst h
        by_cases hU : ty = ElfSectionType.Unused
        · rw [if_neg (by simp [hU])] at hs
          exact ih (cur + es) rest hrec s hs
        · rw [if_pos hU] at hs
          rcases List.mem_cons.mp hs with hhead | htail
          · subst hhead
            exact ⟨rfl, rfl, rfl, rfl⟩
          · exact ih (cur + es) rest hrec s htail

/-- `keep` predicate of the iterator: the section's raw type code does not
map to `Unused`. -/
def keepSection (s : ElfSection) : Bool :=
  decide (sectionTypeOfRaw (readAt (s.backing.drop s.inner) 4 4) ≠ ElfSectionType.Unused)

/-- All `number_of_sections` on-wire entries, in order, as section handles. -/
def allElfSections (t : ElfSectionsTag) (offset : Nat) : List ElfSection :=
  (List.range t.number_of_sections).map
    (fun i => ElfSection.mk t.sections (i * t.entry_size)
      (t.shndx * t.entry_size) t.entry_size offset)

theorem elfCollect_filter_aux (backing : List Nat) (ss off es : Nat)
    (hco : ∀ cur : Nat, (ElfSection.mk backing cur ss es off).section_type =
      .ok (sectionTypeOfRaw (readAt (backing.drop cur) 4 4))) :
    ∀ (n cur : Nat),
      elfCollect backing ss es off cur n =
        .ok (((List.range n).map
          (fun i => ElfSection.mk backing (cur + i * es) ss es off)).filter keepSection) := by
  intro n
  induction n with
  | zero =>
    intro cur
    simp [elfCollect]
  | succ n ih =>
    intro cur
    simp only [elfCollect, hco cur, ih (cur + es)]
    rw [List.range_succ_eq_map, List.map_cons, List.map_map, List.filter_cons]
    have harith : ∀ i : Nat,
        (ElfSection.mk backing (cur + i.succ * es) ss es off) =
          (ElfSection.mk backing (cur + es + i * es) ss es off) := by
      intro i
      have : cur + i.succ * es = cur + es + i * es := by
        simp [Nat.succ_mul]
        omega
      rw [this]
    have hmap : (List.range n).map
        ((fun i => ElfSection.mk backing (cur + i * es) ss es off) ∘ Nat.succ) =
        (List.range n).map
        (fun i => ElfSection.mk backing (cur + es + i * es) ss es off) := by
      refine List.map_congr_left ?_
      intro i _
      simp only [Function.comp]
      exact harith i
    rw [hmap]
    simp only [Nat.zero_mul, Nat.add_zero]
    by_cases hU : sectionTypeOfRaw (readAt (backing.drop cur) 4 4) = ElfSectionType.Unused
    · have hk : keepSection (ElfSection.mk backing cur ss es off) = false := by
        simp [keepSection, hU]
      rw [if_neg (by simp [hU]), hk]
      simp
    · have hk : keepSection (ElfSection.mk backing cur ss es off) = true := by
        simp [keepSection, hU]
      rw [if_pos hU, hk]
      simp

/-- C7: for every ELF sections tag (with a valid 40- or 64-byte entry size),
every section yielded by the iterator resolves names through the tag's own
element array: the iterator's string-table pointer is the element base plus
`shndx * entry_size`; `string_table()` reads that element's own `addr` field
and adds the caller-supplied `offset`; and `name()` reads the NUL-terminated
string at that address plus the section's own `name_index`. -/
theorem C7_elf_string_table_self_reference (t : ElfSectionsTag) (offset : Nat)
    (mem : Nat → Nat) (fuel : Nat) (hes : t.entry_size = 40 ∨ t.entry_size = 64)
    (l : List ElfSection) (hl : elf_sections t offset = .ok l) :
    ∀ s ∈ l,
      s.string_section = t.shndx * t.entry_size ∧
      s.string_table = .ok (elfAddrField t + offset) ∧
      s.name mem fuel = .ok ((cstrScan mem
        (elfAddrField t + offset + readAt (t.sections.drop s.inner) 0 4) fuel).map utf8Step) := by
  intro s hs
  obtain ⟨hb, hss, hesz, hoff⟩ := elfCollect_mem t.sections (t.shndx * t.entry_size)
    t.entry_size offset t.number_of_sections 0 l hl s hs
  obtain ⟨bk, inn, ssv, esv, ofv⟩ := s
  simp only at hb hss hesz hoff ⊢
  subst hb
  subst hss
  subst hesz
  subst hoff
  refine ⟨rfl, ?_, ?_⟩
  · obtain h | h := hes <;>
      simp [ElfSection.string_table, elfAddrField, h]
  · obtain h | h := hes <;>
      simp [ElfSection.name, ElfSection.string_table, ElfSection.name_index,
        elfAddrField, h]

def t0C7 : ElfSectionsTag :=
  { number_of_sections := 1, entry_size := 40, shndx := 0,
    sections := [1, 0, 0, 0, 1, 0, 0, 0, 0, 0, 0, 0, 100, 0, 0, 0] ++
      List.replicate 24 0 }

def mem0C7 : Nat → Nat :=
  fun a => if a = 101 then 65 else 0

def sec0C7 : ElfSection :=
  { backing := t0C7.sections, inner := 0, string_section := 0,
    entry_size := 40, offset := 0 }

theorem C7_elf_string_table_self_reference_witness :
    sec0C7.string_section = t0C7.shndx * t0C7.entry_size ∧
    sec0C7.string_table = .ok (elfAddrField t0C7 + 0) ∧
    sec0C7.name mem0C7 8 = .ok ((cstrScan mem0C7
      (elfAddrField t0C7 + 0 + readAt (t0C7.sections.drop sec0C7.inner) 0 4) 8).map utf8Step) :=
  C7_elf_string_table_self_reference t0C7 0 mem0C7 8 (Or.inl rfl)
    [sec0C7] (by decide) sec0C7 (by decide)

/-- C10: the ELF section iterator walks all `number_of_sections` on-wire
entries in order but yields only those whose section type is not `Unused`:
the result equals the filter of the full entry list by the keep predicate;
moreover raw type code 0 maps to `Unused`, and every unrecognized code
(12..0x5FFFFFFF, or ≥ 0x80000000) is also mapped to `Unused` and hence
skipped, so the number of yielded sections can be smaller than
`number_of_sections`. -/
theorem C10_elf_iter_skips_unused (t : ElfSectionsTag) (offset : Nat)
    (hes : t.entry_size = 40 ∨ t.entry_size = 64) :
    elf_sections t offset = .ok ((allElfSections t offset).filter keepSection) ∧
    sectionTypeOfRaw 0 = ElfSectionType.Unused ∧
    (∀ v : Nat, 12 ≤ v → v < 0x60000000 → sectionTypeOfRaw v = ElfSectionType.Unused) ∧
    (∀ v : Nat, 0x80000000 ≤ v → sectionTypeOfRaw v = ElfSectionType.Unused) := by
  refine ⟨?_, rfl, ?_, ?_⟩
  · have hco : ∀ cur : Nat,
        (ElfSection.mk t.sections cur (t.shndx * t.entry_size) t.entry_size offset).section_type =
          .ok (sectionTypeOfRaw (readAt (t.sections.drop cur) 4 4)) := by
      intro cur
      obtain h | h := hes <;>
        simp [ElfSection.section_type, ElfSection.section_type_raw, h]
    have hfa := elfCollect_filter_aux t.sections (t.shndx * t.entry_size) offset
      t.entry_size hco t.number_of_sections 0
    rw [elf_sections, hfa]
    refine congrArg PResult.ok (congrArg (List.filter keepSection) ?_)
    refine List.map_congr_left ?_
    intro i _
    rw [Nat.zero_add]
  · intro v h1 h2
    unfold sectionTypeOfRaw
    repeat rw [if_neg (by omega)]
  · intro v h1
    unfold sectionTypeOfRaw
    repeat rw [if_neg (by omega)]

def t0C10 : ElfSectionsTag :=
  { number_of_sections := 3, entry_size := 40, shndx := 0,
    sections := ([0, 0, 0, 0, 1, 0, 0, 0] ++ List.replicate 32 0) ++
      (List.replicate 40 0 ++
        ([0, 0, 0, 0, 99, 0, 0, 0] ++ List.replicate 32 0)) }

theorem C10_elf_iter_skips_unused_witness :
    elf_sections t0C10 0 = .ok [ElfSection.mk t0C10.sections 0 0 40 0] ∧
    sectionTypeOfRaw 99 = ElfSectionType.Unused ∧
    sectionTypeOfRaw 0x90000000 = ElfSectionType.Unused :=
  ⟨((C10_elf_iter_skips_unused t0C10 0 (Or.inl rfl)).1).trans (by decide),
    (C10_elf_iter_skips_unused t0C10 0 (Or.inl rfl)).2.2.1 99 (by decide) (by decide),
    (C10_elf_iter_skips_unused t0C10 0 (Or.inl rfl)).2.2.2 0x90000000 (by decide)⟩

/-!
### Builder constructors (`CommandLineTag::new`, `ElfSectionsTag::new`,
`BasicMemoryInfoTag::new`)

Each constructor is embedded as the pair (value of the tag header's `size`
field, bytes of the tag body — everything following the 8-byte header — that
the constructor writes).
-/

/-- `CommandLineTag::new`: `CString::new` (panics via `.expect` on an
interior NUL), then `size = bytes_with_nul.len() + METADATA_SIZE` with
`METADATA_SIZE = 8`, body = the NUL-terminated string bytes. -/
def CommandLineTag.new (command_line : List Nat) : PResult (Nat × List Nat) :=
  if 0 ∈ command_line then .panic "failed to create CString"
  else .ok (command_line.length + 1 + 8, command_line ++ [0])

/-- `BasicMemoryInfoTag::new`: a fixed-size tag,
`size = size_of::<BasicMemoryInfoTag>() = 16`, body = the two `u32` fields. -/
def BasicMemoryInfoTag.new (memory_lower memory_upper : Nat) : Nat × List Nat :=
  (16, writeLE memory_lower 4 ++ writeLE memory_upper 4)

/-- `ElfSectionsTag::new`: `size = sections.len() + METADATA_SIZE` with
`METADATA_SIZE = 8` there, while the body passed to `boxed_dst_tag` is the
twelve bytes of `number_of_sections`, `entry_size`, `shndx` followed by the
section data. -/
def ElfSectionsTag.new (number_of_sections entry_size shndx : Nat)
    (sections : List Nat) : Nat × List Nat :=
  (sections.length + 8,
    writeLE number_of_sections 4 ++ writeLE entry_size 4 ++ writeLE shndx 4 ++ sections)

/-- C9: the claim that every cited builder constructor writes
`size = 8 + body.len()` holds for `CommandLineTag::new` and
`BasicMemoryInfoTag::new` but fails for `ElfSectionsTag::new`: its body is
always 12 bytes longer than its declared size accounts for
(`size = 8 + sections.len()` although the body also carries the three `u32`
header fields), so at the concrete input `new(4, 40, 1, &[])` the written
size is 8 while `8 + body.len()` is 20. -/
theorem C9_builder_size_fields :
    (∀ n es sh : Nat, ∀ secs : List Nat,
      (ElfSectionsTag.new n es sh secs).1 = secs.length + 8 ∧
      (ElfSectionsTag.new n es sh secs).2.length = secs.length + 12) ∧
    (ElfSectionsTag.new 4 40 1 []).1 = 8 ∧
    8 + (ElfSectionsTag.new 4 40 1 []).2.length = 20 ∧
    CommandLineTag.new [104, 105] = .ok (11, [104, 105, 0]) ∧
    (11 = 8 + [104, 105, 0].length) ∧
    (BasicMemoryInfoTag.new 640 1024).1 =
      8 + (BasicMemoryInfoTag.new 640 1024).2.length := by
  refine ⟨?_, by decide, by decide, by decide, by decide, by decide⟩
  intro n es sh secs
  constructor
  · rfl
  · simp [ElfSectionsTag.new, writeLE_length]
    omega
